import Mathlib

/-!
Shallow embedding of `pulp_rpm/common/models.py`: the content-unit data
model (Package base class, VersionedPackage, the six concrete variants),
the type registry, and the helpers the specification describes.

Python values that flow through these classes are modelled by `Value`
(strings, numbers, lists, dicts); Python dicts are association lists with
first-match lookup and replace-or-append update; fallible Python code
(KeyError, TypeError, AttributeError, IndexError) is modelled with
`Except PyError`.
-/

set_option autoImplicit false

/-- Python values as they occur in this module: strings, integers,
lists and dicts. -/
inductive Value where
  | str (s : String)
  | num (n : Nat)
  | vlist (l : List Value)
  | vdict (d : List (String × Value))

/-- The Python exceptions this module can raise. -/
inductive PyError where
  | keyError (k : String)
  | typeError
  | attributeError
  | indexError
deriving DecidableEq, Repr

/-- Python dict lookup `d[k]` / `d.get(k)` on an association list:
first matching key wins. -/
def alookup {α : Type} (d : List (String × α)) (k : String) : Option α :=
  match d with
  | [] => none
  | (k', v) :: rest => if k' = k then some v else alookup rest k

/-- Python dict assignment `d[k] = v`: replace the existing binding,
or append a new one. -/
def dictSet (d : List (String × Value)) (k : String) (v : Value) : List (String × Value) :=
  match d with
  | [] => [(k, v)]
  | (k', v') :: rest => if k' = k then (k, v) :: rest else (k', v') :: dictSet rest k v

/-- Python dash-join (the join method of the string "-") on a list of strings. -/
def dashConcat : List String → String
  | [] => ""
  | [s] => s
  | s :: rest => s ++ "-" ++ dashConcat rest

/-- Extract a Python `str`; any other value raises TypeError (as string
operations such as `join` do). -/
def asStr : Value → Except PyError String
  | .str s => .ok s
  | _ => .error .typeError

/-- Python dash-join over a list of values: every element must be a string. -/
def joinDash (vs : List Value) : Except PyError String := do
  let ss ← vs.mapM asStr
  .ok (dashConcat ss)

/-- The six concrete Package classes of the module. -/
inductive PType where
  | distribution
  | drpm
  | rpm
  | erratum
  | packageGroup
  | packageCategory
deriving DecidableEq, Repr

/-- Class attribute `UNIT_KEY_NAMES` of each variant, in declared order. -/
def UNIT_KEY_NAMES : PType → List String
  | .distribution => ["id", "family", "variant", "version", "arch"]
  | .drpm => ["epoch", "version", "release", "filename", "checksumtype", "checksum"]
  | .rpm => ["name", "epoch", "version", "release", "arch", "checksumtype", "checksum"]
  | .erratum => ["id"]
  | .packageGroup => ["id", "repo_id"]
  | .packageCategory => ["id", "repo_id"]

/-- Class attribute `TYPE` of each variant. -/
def TYPE : PType → String
  | .distribution => "distribution"
  | .drpm => "drpm"
  | .rpm => "rpm"
  | .erratum => "erratum"
  | .packageGroup => "package_group"
  | .packageCategory => "package_category"

/-- A constructed unit: its class, the per-instance attributes set by
`Package.__init__` from `UNIT_KEY_NAMES` (in declared order), and the
`metadata` attribute. -/
structure Package where
  cls : PType
  attrs : List (String × Value)
  metadata : Value

/-- The loop of `Package.__init__`: for each unit-key name look the value
up in `local_vars`, raising KeyError at the first absent name. -/
def collectAttrs (local_vars : List (String × Value)) :
    List String → Except PyError (List (String × Value))
  | [] => .ok []
  | n :: ns =>
    match alookup local_vars n with
    | none => .error (.keyError n)
    | some v => do
      let rest ← collectAttrs local_vars ns
      .ok ((n, v) :: rest)

/-- Embeds `Package.__init__(self, local_vars)`: set one attribute per
unit-key name from `local_vars` (KeyError if absent), then set
`self.metadata` to the value of the key "metadata" in `local_vars`,
defaulting to an empty dict. -/
def Package.init (cls : PType) (local_vars : List (String × Value)) :
    Except PyError Package := do
  let attrs ← collectAttrs local_vars (UNIT_KEY_NAMES cls)
  .ok { cls := cls, attrs := attrs, metadata := (alookup local_vars "metadata").getD (.vdict []) }

/-- Python attribute lookup `getattr(self, name)`: instance attributes
first, then the `metadata` attribute, then the class attribute `TYPE`;
anything else raises AttributeError. -/
def Package.getattr (p : Package) (name : String) : Except PyError Value :=
  match alookup p.attrs name with
  | some v => .ok v
  | none =>
    if name = "metadata" then .ok p.metadata
    else if name = "TYPE" then .ok (.str (TYPE p.cls))
    else .error .attributeError

/-- The `unit_key` property: a mapping from each unit-key name (in
declared order) to the corresponding attribute value. -/
def Package.unit_key (p : Package) : Except PyError (List (String × Value)) :=
  (UNIT_KEY_NAMES p.cls).mapM fun n => do
    let v ← p.getattr n
    pure (n, v)

/-- Names of the unit-key fields actually stored on an instance. -/
def attrKeys (p : Package) : List String :=
  p.attrs.map Prod.fst

/-- Keys of the metadata dict of an instance (a non-dict metadata value
has no keys). -/
def metaKeys (p : Package) : List String :=
  match p.metadata with
  | .vdict d => d.map Prod.fst
  | _ => []

/-- The parameter list of the `__init__` of each variant (after `self`).
`Distribution.__init__` takes no `id` and no `metadata`; every other
variant takes its unit-key fields in order followed by `metadata`. -/
def ctorParams : PType → List String
  | .distribution => ["family", "variant", "version", "arch"]
  | .drpm => ["epoch", "version", "release", "filename", "checksumtype", "checksum", "metadata"]
  | .rpm => ["name", "epoch", "version", "release", "arch", "checksumtype", "checksum", "metadata"]
  | .erratum => ["id", "metadata"]
  | .packageGroup => ["id", "repo_id", "metadata"]
  | .packageCategory => ["id", "repo_id", "metadata"]

/-- Whether a keyword-argument call `cls(**kwargs)` binds: every
parameter receives a value and no keyword is left over (there are no
defaults), else Python raises TypeError. -/
def bindOk (cls : PType) (kwargs : List (String × Value)) : Bool :=
  (ctorParams cls).all (fun q => (alookup kwargs q).isSome) &&
  kwargs.all (fun kv => (ctorParams cls).contains kv.1)

/-- Embeds a constructor call `cls(**kwargs)`: bind the keyword arguments
to the parameters of `__init__` of the variant, then run its body.  All
variants but Distribution forward `locals()` (exactly the bound
parameters) to `Package.__init__`; `Distribution.__init__` first derives
`id` as the dash-join of "ks", family, variant, version, arch and adds it
to its `locals()`. -/
def callCtor (cls : PType) (kwargs : List (String × Value)) : Except PyError Package :=
  if bindOk cls kwargs then
    match cls with
    | .distribution =>
      match alookup kwargs "family", alookup kwargs "variant",
            alookup kwargs "version", alookup kwargs "arch" with
      | some fv, some vv, some verv, some av => do
        let idv ← joinDash [.str "ks", fv, vv, verv, av]
        Package.init .distribution (dictSet kwargs "id" (.str idv))
      | _, _, _, _ => .error .typeError
    | _ => Package.init cls kwargs
  else .error .typeError

namespace Distribution

/-- Embeds the call `Distribution(family, variant, version, arch)` with
string arguments. -/
def new (family variant version arch : String) : Except PyError Package :=
  callCtor .distribution
    [("family", .str family), ("variant", .str variant),
     ("version", .str version), ("arch", .str arch)]

/-- Embeds `Distribution.relative_path`: returns `self.id`. -/
def relative_path (p : Package) : Except PyError Value :=
  p.getattr "id"

end Distribution

namespace DRPM

/-- Embeds the call `DRPM(epoch, version, release, filename,
checksumtype, checksum, metadata)` with string key fields. -/
def new (epoch version release filename checksumtype checksum : String)
    (metadata : Value) : Except PyError Package :=
  callCtor .drpm
    [("epoch", .str epoch), ("version", .str version), ("release", .str release),
     ("filename", .str filename), ("checksumtype", .str checksumtype),
     ("checksum", .str checksum), ("metadata", metadata)]

end DRPM

namespace RPM

/-- Embeds the call `RPM(name, epoch, version, release, arch,
checksumtype, checksum, metadata)` with string key fields. -/
def new (name epoch version release arch checksumtype checksum : String)
    (metadata : Value) : Except PyError Package :=
  callCtor .rpm
    [("name", .str name), ("epoch", .str epoch), ("version", .str version),
     ("release", .str release), ("arch", .str arch),
     ("checksumtype", .str checksumtype), ("checksum", .str checksum),
     ("metadata", metadata)]

end RPM

namespace Errata

/-- Embeds the call `Errata(id, metadata)` with a string id. -/
def new (id : String) (metadata : Value) : Except PyError Package :=
  callCtor .erratum [("id", .str id), ("metadata", metadata)]

end Errata

namespace PackageGroup

/-- Embeds the call `PackageGroup(id, repo_id, metadata)` with string key
fields. -/
def new (id repo_id : String) (metadata : Value) : Except PyError Package :=
  callCtor .packageGroup
    [("id", .str id), ("repo_id", .str repo_id), ("metadata", metadata)]

end PackageGroup

namespace PackageCategory

/-- Embeds the call `PackageCategory(id, repo_id, metadata)` with string
key fields. -/
def new (id repo_id : String) (metadata : Value) : Except PyError Package :=
  callCtor .packageCategory
    [("id", .str id), ("repo_id", .str repo_id), ("metadata", metadata)]

end PackageCategory

/-- The loop of `Package.from_package_info`, iterating the given field
mapping and assigning each entry into either the unit-key dict or the
metadata dict: unit-key names go to the first, a `type` entry is skipped
unless the class is Errata, everything else goes to metadata. -/
def splitFieldsAux (cls : PType) :
    List (String × Value) →
    List (String × Value) × List (String × Value) →
    List (String × Value) × List (String × Value)
  | [], acc => acc
  | (k, v) :: rest, acc =>
    splitFieldsAux cls rest
      (if (UNIT_KEY_NAMES cls).contains k then (dictSet acc.1 k v, acc.2)
       else if k == "type" && cls != PType.erratum then acc
       else (acc.1, dictSet acc.2 k v))

/-- The unit-key dict and metadata dict accumulated by
`Package.from_package_info` over `package_info`, both starting empty. -/
def splitFields (cls : PType) (package_info : List (String × Value)) :
    List (String × Value) × List (String × Value) :=
  splitFieldsAux cls package_info ([], [])

/-- Embeds `Package.from_package_info(cls, package_info)`: split the fields,
store the metadata dict under the `metadata` key of the unit-key dict,
and invoke `cls(**unit_key)`. -/
def from_package_info (cls : PType) (package_info : List (String × Value)) :
    Except PyError Package :=
  let s := splitFields cls package_info
  callCtor cls (dictSet s.1 "metadata" (.vdict s.2))

/-- The module-level `TYPE_MAP`, keyed by the `TYPE` tag of each class. -/
def TYPE_MAP : List (String × PType) :=
  [("distribution", .distribution), ("drpm", .drpm), ("erratum", .erratum),
   ("package_category", .packageCategory), ("package_group", .packageGroup),
   ("rpm", .rpm)]

/-- Embeds `from_typed_unit_key_tuple(typed_tuple)`.  The body looks the class
up in `TYPE_MAP` by the first tuple element (KeyError when the tag is
unknown, IndexError on an empty tuple) and then evaluates
`package_class.from_package_info(*args, metadata={})`.  Because
`from_package_info` is a classmethod accepting the single parameter
`package_info` and no `metadata` parameter, that call never binds: the
`metadata` keyword is always unexpected, so Python raises TypeError
before any constructor runs, whatever the tuple tail holds. -/
def from_typed_unit_key_tuple (typed_tuple : List String) : Except PyError Package :=
  match typed_tuple with
  | [] => .error .indexError
  | tag :: _args =>
    match alookup TYPE_MAP tag with
    | none => .error (.keyError tag)
    | some _cls => .error .typeError

namespace version_utils

/-- Maximal runs of characters, classified by `Char.isDigit`. -/
def groupRuns : List Char → List (Bool × List Char)
  | [] => []
  | c :: rest =>
    match groupRuns rest with
    | [] => [(c.isDigit, [c])]
    | (b, run) :: more =>
      if c.isDigit = b then (b, c :: run) :: more
      else (c.isDigit, [c]) :: (b, run) :: more

/-- Encoding of one run: letter runs pass through (they compare
lexically); a digit run is stripped of leading zeros and prefixed with a
length marker so that encoded digit runs compare numerically under
ordinary string comparison. -/
def encodeRun : Bool × List Char → String
  | (false, cs) => String.mk cs
  | (true, cs) =>
    let ds := cs.dropWhile (fun c => c = '0')
    let ds := if ds.isEmpty then ['0'] else ds
    String.mk (List.replicate ds.length '#') ++ "!" ++ String.mk ds

/-- Modelled from the spec: `version_utils.encode` lives in an external
helper module and is consumed by `complete_version_serialized`; per the
spec it applies an RPM-version-segment encoding to a component so that
digit runs compare numerically and letter runs compare lexically under
plain string comparison. -/
def encode (field : String) : String :=
  String.join ((groupRuns field.toList).map encodeRun)

end version_utils

/-- Python 2 `cmp` on a pair of strings. -/
def pyCmpStr (a b : String) : Int :=
  if a < b then -1 else if b < a then 1 else 0

/-- Python 2 `cmp` on tuples of strings: elementwise, first difference
wins, a shorter tuple that is a prefix of the longer compares less. -/
def pyCmpList : List String → List String → Int
  | [], [] => 0
  | [], _ :: _ => -1
  | _ :: _, [] => 1
  | a :: as, b :: bs =>
    if pyCmpStr a b = 0 then pyCmpList as bs else pyCmpStr a b

namespace VersionedPackage

/-- Embeds `VersionedPackage.key_string_without_version`: the values of the
unit-key fields other than epoch, version, release, checksum and
checksumtype, in declared order, with `self.TYPE` appended, dash-joined. -/
def key_string_without_version (p : Package) : Except PyError String := do
  let keys ← ((UNIT_KEY_NAMES p.cls).filter
      (fun k => !(["epoch", "version", "release", "checksum", "checksumtype"].contains k))).mapM
      p.getattr
  joinDash (keys ++ [.str (TYPE p.cls)])

/-- Embeds `VersionedPackage.complete_version`: the values of whichever of
epoch, version, release occur among the unit-key names, in that order. -/
def complete_version (p : Package) : Except PyError (List Value) :=
  (["epoch", "version", "release"].filter
      (fun n => (UNIT_KEY_NAMES p.cls).contains n)).mapM p.getattr

/-- Embeds `VersionedPackage.complete_version_serialized`:
`version_utils.encode` applied to each component of `complete_version`
(the external encoder operates on version strings). -/
def complete_version_serialized (p : Package) : Except PyError (List String) := do
  let vals ← complete_version p
  let ss ← vals.mapM asStr
  .ok (ss.map version_utils.encode)

/-- Embeds `VersionedPackage.__cmp__(self, other)`:
`cmp(self.complete_version_serialized, other.complete_version_serialized)`. -/
def cmp (a b : Package) : Except PyError Int := do
  let sa ← complete_version_serialized a
  let sb ← complete_version_serialized b
  .ok (pyCmpList sa sb)

end VersionedPackage

/-- Python `os.path.basename` (posix): the part after the last slash. -/
def osPathBasename (p : String) : String :=
  (p.splitOn "/").getLastD ""

/-- The prefix of a character list up to and including its last slash
(empty when there is no slash). -/
def lastSlashHead : List Char → List Char
  | [] => []
  | c :: rest =>
    match lastSlashHead rest with
    | [] => if c = '/' then ['/'] else []
    | x :: xs => c :: x :: xs

/-- Python `os.path.dirname` (posix): everything up to the last slash,
with trailing slashes stripped unless the result is all slashes. -/
def osPathDirname (p : String) : String :=
  let head := lastSlashHead p.toList
  if head.all (fun c => c = '/') then String.mk head
  else String.mk ((head.reverse.dropWhile (fun c => c = '/')).reverse)

/-- Python `os.path.join` (posix) on two components. -/
def osPathJoin2 (a b : String) : String :=
  if b.startsWith "/" then b
  else if a = "" || a.endsWith "/" then a ++ b
  else a ++ "/" ++ b

/-- Modelled from the spec: the fixed storage-root constant
`constants.DISTRIBUTION_STORAGE_PATH` consumed by
`process_download_reports`; its value lives outside this module. -/
def DISTRIBUTION_STORAGE_PATH : String := "/var/lib/pulp/content/distribution"

/-- Modelled from the spec: the download report structure produced by the
external download subsystem
(`pulp.common.download.report.DownloadReport`), carrying a source URL,
destination path and total byte size, with `report.data` holding the
checksum, checksum type and relative path entries. -/
structure DownloadReport where
  url : String
  destination : String
  total_bytes : Nat
  checksum : String
  checksumtype : String
  relativepath : String

/-- The dict appended to the "files" metadata entry for one download report by
`Distribution.process_download_reports`. -/
def mkFileDescriptor (typeTag idVal : String) (r : DownloadReport) : Value :=
  .vdict
    [("checksum", .str r.checksum),
     ("checksumtype", .str r.checksumtype),
     ("downloadurl", .str r.url),
     ("filename", .str (osPathBasename r.relativepath)),
     ("fileName", .str (osPathBasename r.relativepath)),
     ("item_type", .str typeTag),
     ("pkgpath", .str (osPathJoin2 (osPathJoin2 DISTRIBUTION_STORAGE_PATH idVal)
        (osPathDirname r.relativepath))),
     ("relativepath", .str r.relativepath),
     ("savepath", .str r.destination),
     ("size", .num r.total_bytes)]

/-- The loop body of `process_download_reports`: one descriptor per
report, reading `self.id` (AttributeError if absent, TypeError if it is
not a string usable in a path join) and `self.TYPE`. -/
def descriptorsFor (p : Package) : List DownloadReport → Except PyError (List Value)
  | [] => .ok []
  | r :: rest => do
    let idv ← p.getattr "id"
    let ids ← asStr idv
    let more ← descriptorsFor p rest
    .ok (mkFileDescriptor (TYPE p.cls) ids r :: more)

/-- The dict effect of the setdefault of an empty list under "files":
when the key is absent a fresh empty list is installed, otherwise the
dict is unchanged. -/
def setdefaultFiles (md : List (String × Value)) : List (String × Value) :=
  match alookup md "files" with
  | some _ => md
  | none => dictSet md "files" (.vlist [])

/-- The list the setdefault hands to the append loop: the existing
"files" value when it is a list, the freshly installed empty list when
the key was absent; appending to a non-list value raises AttributeError
(which the loop only reaches once a first report is processed). -/
def filesForAppend (md : List (String × Value)) : Except PyError (List Value) :=
  match alookup md "files" with
  | some (.vlist l) => .ok l
  | some _ => .error .attributeError
  | none => .ok []

/-- Embeds `Distribution.process_download_reports(self, reports)`: the
setdefault of an empty list under "files" on `self.metadata`
(AttributeError when metadata is not a dict), then one descriptor
appended per report, in order.  An exception raised while processing a
report aborts the call (the embedding returns only the error, as only
successful results are ever persisted). -/
def Distribution.process_download_reports (p : Package) (reports : List DownloadReport) :
    Except PyError Package :=
  match p.metadata with
  | .vdict md =>
    match reports with
    | [] => .ok { p with metadata := .vdict (setdefaultFiles md) }
    | _ :: _ => do
      let cur ← filesForAppend md
      let descs ← descriptorsFor p reports
      let newMeta := Value.vdict
        (dictSet (setdefaultFiles md) "files" (.vlist (cur ++ descs)))
      .ok { p with metadata := newMeta }
  | _ => .error .attributeError

/-- The current "files" metadata list of a unit (empty when absent or
not a list). -/
def metaFiles (p : Package) : List Value :=
  match p.metadata with
  | .vdict d =>
    match alookup d "files" with
    | some (.vlist l) => l
    | _ => []
  | _ => []

/-- Lookup of one metadata entry (none when metadata is not a dict). -/
def lookupMeta (p : Package) (k : String) : Option Value :=
  match p.metadata with
  | .vdict d => alookup d k
  | _ => none

/-- The instance built by a successful direct `RPM(...)` call. -/
def rpmPkg (n e v r a ct c : String) (md : Value) : Package :=
  { cls := .rpm,
    attrs := [("name", .str n), ("epoch", .str e), ("version", .str v),
      ("release", .str r), ("arch", .str a), ("checksumtype", .str ct),
      ("checksum", .str c)],
    metadata := md }

/-- The instance built by a successful direct `DRPM(...)` call. -/
def drpmPkg (e v r f ct c : String) (md : Value) : Package :=
  { cls := .drpm,
    attrs := [("epoch", .str e), ("version", .str v), ("release", .str r),
      ("filename", .str f), ("checksumtype", .str ct), ("checksum", .str c)],
    metadata := md }

/-- The instance built by a successful direct `Errata(...)` call. -/
def errataPkg (i : String) (md : Value) : Package :=
  { cls := .erratum, attrs := [("id", .str i)], metadata := md }

/-- The instance built by a successful direct `Distribution(...)` call. -/
def distPkg (family variant version arch : String) : Package :=
  { cls := .distribution,
    attrs := [("id", .str (dashConcat ["ks", family, variant, version, arch])),
      ("family", .str family), ("variant", .str variant),
      ("version", .str version), ("arch", .str arch)],
    metadata := .vdict [] }

/-- A tagged field mapping for an erratum carrying a `type` entry. -/
def infoErrataDemo : List (String × Value) :=
  [("id", .str "E1"), ("type", .str "erratum"), ("extra", .str "e")]

/-- The erratum built from `infoErrataDemo` by `from_package_info`. -/
def pErrataDemo : Package :=
  errataPkg "E1" (.vdict [("type", .str "erratum"), ("extra", .str "e")])

/-- A tagged field mapping for an RPM carrying a `type` entry. -/
def infoRpmDemo : List (String × Value) :=
  [("name", .str "bash"), ("epoch", .str "0"), ("version", .str "4.3"),
   ("release", .str "1"), ("arch", .str "x86_64"), ("checksumtype", .str "sha256"),
   ("checksum", .str "abc"), ("type", .str "rpm"), ("extra", .str "e")]

/-- The RPM built from `infoRpmDemo` by `from_package_info`. -/
def pRpmInfoDemo : Package :=
  rpmPkg "bash" "0" "4.3" "1" "x86_64" "sha256" "abc" (.vdict [("extra", .str "e")])

/-- An RPM instance used to exercise version comparison. -/
def pCmpA : Package :=
  rpmPkg "bash" "0" "4.3" "1" "x86_64" "sha256" "abc" (.vdict [])

/-- A second RPM with the same epoch, version and release but different
name, arch, checksums and metadata. -/
def pCmpB : Package :=
  rpmPkg "zsh" "0" "4.3" "1" "ppc64" "md5" "zzz" (.vdict [("extra", .str "m")])

/-- A kickstart distribution used by the download-report witnesses. -/
def dDemo : Package := distPkg "f20" "server" "1" "x86_64"

/-- A successful download report used by the download-report witnesses. -/
def rDemo : DownloadReport :=
  { url := "http://example/images/boot.iso", destination := "/tmp/boot.iso",
    total_bytes := 7, checksum := "c1", checksumtype := "sha256",
    relativepath := "images/boot.iso" }

/-- The file descriptor `process_download_reports` derives from `rDemo`
on `dDemo`. -/
def fdDemo : Value :=
  mkFileDescriptor "distribution" (dashConcat ["ks", "f20", "server", "1", "x86_64"]) rDemo

/-- `dDemo` after one `process_download_reports` call on `[rDemo]`. -/
def dDemo1 : Package :=
  { dDemo with metadata := .vdict [("files", .vlist [fdDemo])] }

/-- `dDemo` after two `process_download_reports` calls on `[rDemo]`. -/
def dDemo2 : Package :=
  { dDemo with metadata := .vdict [("files", .vlist [fdDemo, fdDemo])] }

theorem alookup_dictSet_self (d : List (String × Value)) (k : String) (v : Value) :
    alookup (dictSet d k v) k = some v := by
  induction d with
  | nil => simp [dictSet, alookup]
  | cons kv rest ih =>
    obtain ⟨k', v'⟩ := kv
    by_cases h : k' = k
    · subst h; simp [dictSet, alookup]
    · simp [dictSet, alookup, h, ih]

theorem alookup_dictSet_ne (d : List (String × Value)) (k k' : String) (v : Value)
    (h : k' ≠ k) : alookup (dictSet d k v) k' = alookup d k' := by
  have hkk : ¬ k = k' := fun hh => h hh.symm
  induction d with
  | nil => simp [dictSet, alookup, hkk]
  | cons kv rest ih =>
    obtain ⟨a, b⟩ := kv
    by_cases ha : a = k
    · subst ha
      simp [dictSet, alookup, hkk]
    · simp [dictSet, alookup, ha, ih]

theorem mem_keys_dictSet {d : List (String × Value)} {k l : String} {v : Value}
    (h : l ∈ (dictSet d k v).map Prod.fst) : l ∈ d.map Prod.fst ∨ l = k := by
  induction d with
  | nil => simpa [dictSet] using h
  | cons kv rest ih =>
    obtain ⟨a, b⟩ := kv
    by_cases ha : a = k
    · rw [show dictSet ((a, b) :: rest) k v = (k, v) :: rest by simp [dictSet, ha]] at h
      simp only [List.map_cons, List.mem_cons] at h ⊢
      rcases h with h | h
      · exact Or.inr h
      · exact Or.inl (Or.inr h)
    · rw [show dictSet ((a, b) :: rest) k v = (a, b) :: dictSet rest k v by
        simp [dictSet, ha]] at h
      simp only [List.map_cons, List.mem_cons] at h ⊢
      rcases h with h | h
      · exact Or.inl (Or.inl h)
      · rcases ih h with h' | h'
        · exact Or.inl (Or.inr h')
        · exact Or.inr h'

theorem alookup_mem {α : Type} {d : List (String × α)} {k : String} {v : α}
    (h : alookup d k = some v) : (k, v) ∈ d := by
  induction d with
  | nil => simp [alookup] at h
  | cons kv rest ih =>
    obtain ⟨k', v'⟩ := kv
    by_cases hk : k' = k
    · subst hk
      simp [alookup] at h
      simp [h]
    · simp [alookup, hk] at h
      exact List.mem_cons_of_mem _ (ih h)

theorem alookup_eq_none {α : Type} {d : List (String × α)} {k : String}
    (h : ¬ k ∈ d.map Prod.fst) : alookup d k = none := by
  induction d with
  | nil => rfl
  | cons kv rest ih =>
    obtain ⟨k', v'⟩ := kv
    simp only [List.map_cons, List.mem_cons] at h
    push_neg at h
    have h1 : ¬ k' = k := fun hh => h.1 hh.symm
    simp [alookup, h1, ih h.2]

theorem exbind_ok {α β : Type} (a : α) (f : α → Except PyError β) :
    (do let x ← Except.ok a; f x : Except PyError β) = f a := rfl

theorem exbind_error {α β : Type} (e : PyError) (f : α → Except PyError β) :
    (do let x ← Except.error e; f x : Except PyError β) = Except.error e := rfl

theorem collectAttrs_cons_none {lv : List (String × Value)} {n : String}
    {ns : List String} (hl : alookup lv n = none) :
    collectAttrs lv (n :: ns) = .error (.keyError n) := by
  simp [collectAttrs, hl]

theorem collectAttrs_cons_some {lv : List (String × Value)} {n : String}
    {ns : List String} {v : Value} (hl : alookup lv n = some v) :
    collectAttrs lv (n :: ns) =
      (do
        let rest ← collectAttrs lv ns
        Except.ok ((n, v) :: rest)) := by
  simp [collectAttrs, hl]

theorem collectAttrs_ok_keys {lv : List (String × Value)} :
    ∀ {ns : List String} {attrs : List (String × Value)},
      collectAttrs lv ns = .ok attrs → attrs.map Prod.fst = ns := by
  intro ns
  induction ns with
  | nil =>
    intro attrs h
    simp [collectAttrs] at h
    simp [← h]
  | cons n ns ih =>
    intro attrs h
    cases hl : alookup lv n with
    | none => rw [collectAttrs_cons_none hl] at h; simp at h
    | some v =>
      rw [collectAttrs_cons_some hl] at h
      cases hc : collectAttrs lv ns with
      | error e => rw [hc, exbind_error] at h; simp at h
      | ok rest =>
        rw [hc, exbind_ok] at h
        injection h with h
        simp [← h, ih hc]

theorem collectAttrs_alookup {lv : List (String × Value)} :
    ∀ {ns : List String} {attrs : List (String × Value)},
      collectAttrs lv ns = .ok attrs →
      ∀ n ∈ ns, alookup attrs n = alookup lv n := by
  intro ns
  induction ns with
  | nil => intro attrs h n hn; simp at hn
  | cons n0 ns ih =>
    intro attrs h n hn
    cases hl : alookup lv n0 with
    | none => rw [collectAttrs_cons_none hl] at h; simp at h
    | some v =>
      rw [collectAttrs_cons_some hl] at h
      cases hc : collectAttrs lv ns with
      | error e => rw [hc, exbind_error] at h; simp at h
      | ok rest =>
        rw [hc, exbind_ok] at h
        injection h with h
        subst h
        by_cases hnn : n0 = n
        · subst hnn
          simp [alookup, hl]
        · rcases List.mem_cons.mp hn with h' | h'
          · exact absurd h'.symm hnn
          · simp [alookup, hnn, ih hc n h']

theorem collectAttrs_missing {lv : List (String × Value)} :
    ∀ {ns : List String}, (∃ n ∈ ns, alookup lv n = none) →
      ∃ m ∈ ns, alookup lv m = none ∧ collectAttrs lv ns = .error (.keyError m) := by
  intro ns
  induction ns with
  | nil => intro h; simp at h
  | cons n0 ns ih =>
    intro h
    cases hl : alookup lv n0 with
    | none =>
      exact ⟨n0, List.mem_cons_self _ _, hl, collectAttrs_cons_none hl⟩
    | some v =>
      obtain ⟨n, hn, hnone⟩ := h
      rcases List.mem_cons.mp hn with h' | h'
      · subst h'; rw [hl] at hnone; cases hnone
      · obtain ⟨m, hm, hmn, herr⟩ := ih ⟨n, h', hnone⟩
        refine ⟨m, List.mem_cons_of_mem _ hm, hmn, ?_⟩
        rw [collectAttrs_cons_some hl, herr, exbind_error]

theorem Package.init_ok_spec {cls : PType} {lv : List (String × Value)} {p : Package}
    (h : Package.init cls lv = .ok p) :
    p.cls = cls ∧ p.attrs.map Prod.fst = UNIT_KEY_NAMES cls ∧
    p.metadata = (alookup lv "metadata").getD (.vdict []) ∧
    ∀ n ∈ UNIT_KEY_NAMES cls, alookup p.attrs n = alookup lv n := by
  unfold Package.init at h
  cases hc : collectAttrs lv (UNIT_KEY_NAMES cls) with
  | error e => rw [hc, exbind_error] at h; simp at h
  | ok attrs =>
    rw [hc, exbind_ok] at h
    injection h with h
    subst h
    exact ⟨rfl, collectAttrs_ok_keys hc, rfl, collectAttrs_alookup hc⟩

theorem bindOk_keys {cls : PType} {kwargs : List (String × Value)}
    (h : bindOk cls kwargs = true) :
    ∀ kv ∈ kwargs, kv.1 ∈ ctorParams cls := by
  unfold bindOk at h
  rw [Bool.and_eq_true] at h
  intro kv hkv
  have h2 := List.all_eq_true.mp h.2 kv hkv
  simpa using h2

theorem bindOk_distribution_no_metadata {kwargs : List (String × Value)}
    (h : bindOk .distribution kwargs = true) :
    alookup kwargs "metadata" = none := by
  cases hm : alookup kwargs "metadata" with
  | none => rfl
  | some v =>
    have hmem := bindOk_keys h _ (alookup_mem hm)
    simp [ctorParams] at hmem

theorem callCtor_ok_spec {cls : PType} {kwargs : List (String × Value)} {p : Package}
    (h : callCtor cls kwargs = .ok p) :
    bindOk cls kwargs = true ∧ p.cls = cls ∧
    p.attrs.map Prod.fst = UNIT_KEY_NAMES cls ∧
    (cls ≠ .distribution → p.metadata = (alookup kwargs "metadata").getD (.vdict [])) ∧
    (cls = .distribution → p.metadata = .vdict []) := by
  unfold callCtor at h
  cases hb : bindOk cls kwargs with
  | false => rw [hb] at h; simp at h
  | true =>
    rw [hb] at h
    cases cls with
    | distribution =>
      cases hf : alookup kwargs "family" with
      | none => rw [hf] at h; simp at h
      | some fv =>
      cases hv : alookup kwargs "variant" with
      | none => rw [hf, hv] at h; simp at h
      | some vv =>
      cases hver : alookup kwargs "version" with
      | none => rw [hf, hv, hver] at h; simp at h
      | some verv =>
      cases ha : alookup kwargs "arch" with
      | none => rw [hf, hv, hver, ha] at h; simp at h
      | some av =>
        rw [hf, hv, hver, ha] at h
        simp only [if_true] at h
        cases hj : joinDash [.str "ks", fv, vv, verv, av] with
        | error e =>
          rw [hj, exbind_error] at h
          simp at h
        | ok idv =>
          rw [hj, exbind_ok] at h
          obtain ⟨h1, h2, h3, _⟩ := Package.init_ok_spec h
          refine ⟨rfl, h1, h2, fun hne => absurd rfl hne, fun _ => ?_⟩
          rw [h3, alookup_dictSet_ne _ _ _ _ (by decide),
            bindOk_distribution_no_metadata hb]
          rfl
    | drpm =>
      obtain ⟨h1, h2, h3, _⟩ := Package.init_ok_spec h
      exact ⟨rfl, h1, h2, fun _ => h3, fun hd => nomatch hd⟩
    | rpm =>
      obtain ⟨h1, h2, h3, _⟩ := Package.init_ok_spec h
      exact ⟨rfl, h1, h2, fun _ => h3, fun hd => nomatch hd⟩
    | erratum =>
      obtain ⟨h1, h2, h3, _⟩ := Package.init_ok_spec h
      exact ⟨rfl, h1, h2, fun _ => h3, fun hd => nomatch hd⟩
    | packageGroup =>
      obtain ⟨h1, h2, h3, _⟩ := Package.init_ok_spec h
      exact ⟨rfl, h1, h2, fun _ => h3, fun hd => nomatch hd⟩
    | packageCategory =>
      obtain ⟨h1, h2, h3, _⟩ := Package.init_ok_spec h
      exact ⟨rfl, h1, h2, fun _ => h3, fun hd => nomatch hd⟩

theorem splitFieldsAux_md_mem {cls : PType} {P : String → Prop}
    (hP : ∀ k, (UNIT_KEY_NAMES cls).contains k = false →
      ((k == "type") && (cls != PType.erratum)) = false → P k) :
    ∀ (info : List (String × Value)) (acc : List (String × Value) × List (String × Value)),
      (∀ k ∈ acc.2.map Prod.fst, P k) →
      ∀ k ∈ (splitFieldsAux cls info acc).2.map Prod.fst, P k := by
  intro info
  induction info with
  | nil => intro acc hacc k hk; exact hacc k hk
  | cons kv rest ih =>
    obtain ⟨k0, v0⟩ := kv
    intro acc hacc k hk
    rw [splitFieldsAux] at hk
    by_cases h1 : (UNIT_KEY_NAMES cls).contains k0 = true
    · rw [if_pos h1] at hk
      exact ih (dictSet acc.1 k0 v0, acc.2) hacc k hk
    · rw [if_neg h1] at hk
      by_cases h2 : ((k0 == "type") && (cls != PType.erratum)) = true
      · rw [if_pos h2] at hk
        exact ih acc hacc k hk
      · rw [if_neg h2] at hk
        refine ih (acc.1, dictSet acc.2 k0 v0) ?_ k hk
        intro l hl
        rcases mem_keys_dictSet hl with hl' | hl'
        · exact hacc l hl'
        · subst hl'
          exact hP l (by simpa using h1) (by simpa using h2)

theorem splitFieldsAux_erratum_type_none :
    ∀ (info : List (String × Value)) (acc : List (String × Value) × List (String × Value)),
      alookup info "type" = none →
      alookup (splitFieldsAux .erratum info acc).2 "type" = alookup acc.2 "type" := by
  intro info
  induction info with
  | nil => intro acc h; rfl
  | cons kv rest ih =>
    intro acc h
    obtain ⟨k, v⟩ := kv
    by_cases hk : k = "type"
    · subst hk; simp [alookup] at h
    · have h' : alookup rest "type" = none := by simpa [alookup, hk] using h
      rw [splitFieldsAux]
      by_cases h1 : (UNIT_KEY_NAMES PType.erratum).contains k = true
      · rw [if_pos h1]
        exact ih _ h'
      · rw [if_neg h1]
        rw [if_neg (by simp)]
        rw [ih _ h']
        exact alookup_dictSet_ne _ _ _ _ (fun hh => hk hh.symm)

theorem splitFieldsAux_erratum_type_some :
    ∀ (info : List (String × Value)) (acc : List (String × Value) × List (String × Value))
      (v : Value),
      (info.map Prod.fst).Nodup → ("type", v) ∈ info →
      alookup (splitFieldsAux .erratum info acc).2 "type" = some v := by
  intro info
  induction info with
  | nil => intro acc v _ hmem; simp at hmem
  | cons kv rest ih =>
    intro acc v hnd hmem
    obtain ⟨k, w⟩ := kv
    simp only [List.map_cons, List.nodup_cons] at hnd
    rcases List.mem_cons.mp hmem with he | hr
    · have hk : k = "type" := by cases he; rfl
      have hw : w = v := by cases he; rfl
      subst hk; subst hw
      have h' : alookup rest "type" = none := alookup_eq_none hnd.1
      rw [splitFieldsAux]
      rw [if_neg (by decide), if_neg (by simp)]
      rw [splitFieldsAux_erratum_type_none rest _ h']
      exact alookup_dictSet_self _ _ _
    · have hk : ¬ k = "type" := by
        intro hh
        subst hh
        exact hnd.1 (List.mem_map.mpr ⟨("type", v), hr, rfl⟩)
      rw [splitFieldsAux]
      by_cases h1 : (UNIT_KEY_NAMES PType.erratum).contains k = true
      · rw [if_pos h1]
        exact ih _ v hnd.2 hr
      · rw [if_neg h1, if_neg (by simp [hk])]
        exact ih _ v hnd.2 hr

theorem from_package_info_ok_spec {cls : PType} {info : List (String × Value)} {p : Package}
    (h : from_package_info cls info = .ok p) :
    cls ≠ .distribution ∧ p.cls = cls ∧
    p.attrs.map Prod.fst = UNIT_KEY_NAMES cls ∧
    p.metadata = .vdict (splitFields cls info).2 := by
  unfold from_package_info at h
  obtain ⟨hb, h1, h2, h3, _⟩ := callCtor_ok_spec h
  have hnd : cls ≠ .distribution := by
    intro hd
    subst hd
    have hm := alookup_dictSet_self (splitFields .distribution info).1 "metadata"
      (.vdict (splitFields .distribution info).2)
    have := bindOk_keys hb _ (alookup_mem hm)
    simp [ctorParams] at this
  refine ⟨hnd, h1, h2, ?_⟩
  rw [h3 hnd, alookup_dictSet_self]
  rfl

theorem pyCmpStr_self (a : String) : pyCmpStr a a = 0 := by
  simp [pyCmpStr, lt_irrefl]

theorem pyCmpList_self : ∀ l : List String, pyCmpList l l = 0
  | [] => rfl
  | a :: as => by simp [pyCmpList, pyCmpStr_self, pyCmpList_self as]

theorem getattr_of_alookup {p : Package} {n : String} {v : Value}
    (h : alookup p.attrs n = some v) : p.getattr n = .ok v := by
  simp [Package.getattr, h]

theorem getattr_id_alookup {p : Package} {v : Value}
    (h : p.getattr "id" = .ok v) : alookup p.attrs "id" = some v := by
  unfold Package.getattr at h
  cases ha : alookup p.attrs "id" with
  | some w =>
    rw [ha] at h
    injection h with h
    rw [h]
  | none =>
    rw [ha] at h
    simp at h

theorem rpmNew_eq (n e v r a ct c : String) (md : Value) :
    RPM.new n e v r a ct c md = .ok (rpmPkg n e v r a ct c md) := rfl

theorem drpmNew_eq (e v r f ct c : String) (md : Value) :
    DRPM.new e v r f ct c md = .ok (drpmPkg e v r f ct c md) := rfl

theorem errataNew_eq (i : String) (md : Value) :
    Errata.new i md = .ok (errataPkg i md) := rfl

theorem distributionNew_eq (family variant version arch : String) :
    Distribution.new family variant version arch =
      .ok (distPkg family variant version arch) := rfl

theorem descriptorsFor_of_id {p : Package} {i : String}
    (h : alookup p.attrs "id" = some (.str i)) :
    ∀ rs : List DownloadReport,
      descriptorsFor p rs = .ok (rs.map (mkFileDescriptor (TYPE p.cls) i)) := by
  intro rs
  induction rs with
  | nil => rfl
  | cons r rest ih =>
    simp only [descriptorsFor]
    rw [getattr_of_alookup h, exbind_ok]
    rw [show asStr (.str i) = Except.ok i from rfl, exbind_ok]
    rw [ih, exbind_ok]
    rfl

theorem descriptorsFor_ok_length {p : Package} :
    ∀ {rs : List DownloadReport} {L : List Value},
      descriptorsFor p rs = .ok L → L.length = rs.length := by
  intro rs
  induction rs with
  | nil =>
    intro L h
    simp [descriptorsFor] at h
    simp [← h]
  | cons r rest ih =>
    intro L h
    simp only [descriptorsFor] at h
    cases hg : Package.getattr p "id" with
    | error e => rw [hg, exbind_error] at h; simp at h
    | ok idv =>
      rw [hg, exbind_ok] at h
      cases hs : asStr idv with
      | error e => rw [hs, exbind_error] at h; simp at h
      | ok ids =>
        rw [hs, exbind_ok] at h
        cases hd : descriptorsFor p rest with
        | error e => rw [hd, exbind_error] at h; simp at h
        | ok more =>
          rw [hd, exbind_ok] at h
          injection h with h
          rw [← h]
          simp [ih hd]

theorem lookupMeta_setdefaultFiles {md : List (String × Value)} {k : String}
    (hk : ¬ k = "files") : alookup (setdefaultFiles md) k = alookup md k := by
  unfold setdefaultFiles
  cases alookup md "files" with
  | some v => rfl
  | none => exact alookup_dictSet_ne _ _ _ _ hk

theorem pdr_ok_spec {p : Package} {reports : List DownloadReport} {q : Package}
    (h : Distribution.process_download_reports p reports = .ok q) :
    q.cls = p.cls ∧ q.attrs = p.attrs ∧
    (∀ k, ¬ k = "files" → lookupMeta q k = lookupMeta p k) ∧
    ∃ L, descriptorsFor p reports = .ok L ∧ metaFiles q = metaFiles p ++ L := by
  unfold Distribution.process_download_reports at h
  cases hm : p.metadata with
  | str s => rw [hm] at h; exact Except.noConfusion h
  | num n => rw [hm] at h; exact Except.noConfusion h
  | vlist l => rw [hm] at h; exact Except.noConfusion h
  | vdict md =>
    rw [hm] at h
    cases reports with
    | nil =>
      change Except.ok
        { cls := p.cls, attrs := p.attrs,
          metadata := Value.vdict (setdefaultFiles md) } = Except.ok q at h
      injection h with h
      rw [← h]
      refine ⟨rfl, rfl, ?_, [], rfl, ?_⟩
      · intro k hk
        simp only [lookupMeta, hm]
        exact lookupMeta_setdefaultFiles hk
      · simp only [metaFiles, hm]
        cases hf : alookup md "files" with
        | none =>
          have hsd : setdefaultFiles md = dictSet md "files" (.vlist []) := by
            unfold setdefaultFiles; rw [hf]
          rw [hsd, alookup_dictSet_self]
          simp
        | some v =>
          have hsd : setdefaultFiles md = md := by
            unfold setdefaultFiles; rw [hf]
          rw [hsd, hf]
          simp
    | cons r rest =>
      change (do
        let cur ← filesForAppend md
        let descs ← descriptorsFor p (r :: rest)
        let newMeta := Value.vdict
          (dictSet (setdefaultFiles md) "files" (.vlist (cur ++ descs)))
        Except.ok { cls := p.cls, attrs := p.attrs, metadata := newMeta }) =
          Except.ok q at h
      cases hc : filesForAppend md with
      | error e => rw [hc, exbind_error] at h; exact Except.noConfusion h
      | ok cur =>
        rw [hc, exbind_ok] at h
        cases hd : descriptorsFor p (r :: rest) with
        | error e => rw [hd, exbind_error] at h; exact Except.noConfusion h
        | ok descs =>
          rw [hd, exbind_ok] at h
          injection h with h
          rw [← h]
          refine ⟨rfl, rfl, ?_, descs, rfl, ?_⟩
          · intro k hk
            simp only [lookupMeta, hm]
            rw [alookup_dictSet_ne _ _ _ _ hk]
            exact lookupMeta_setdefaultFiles hk
          · simp only [metaFiles, hm]
            rw [alookup_dictSet_self]
            unfold filesForAppend at hc
            cases hf : alookup md "files" with
            | none =>
              rw [hf] at hc
              injection hc with hc
              rw [← hc]
            | some v =>
              rw [hf] at hc
              cases v with
              | vlist l =>
                injection hc with hc
                rw [← hc]
              | str s => exact Except.noConfusion hc
              | num n => exact Except.noConfusion hc
              | vdict d => exact Except.noConfusion hc

theorem metaKeys_vdict {p : Package} {d : List (String × Value)}
    (h : p.metadata = .vdict d) : metaKeys p = d.map Prod.fst := by
  unfold metaKeys
  rw [h]

theorem lookupMeta_vdict {p : Package} {d : List (String × Value)}
    (h : p.metadata = .vdict d) (k : String) : lookupMeta p k = alookup d k := by
  unfold lookupMeta
  rw [h]

theorem metaKeys_nonDict {p : Package}
    (h : ∀ d : List (String × Value), ¬ p.metadata = .vdict d) : metaKeys p = [] := by
  unfold metaKeys
  cases hm : p.metadata with
  | vdict d => exact absurd hm (h d)
  | str s => rfl
  | num n => rfl
  | vlist l => rfl

/-- Claim C1: the specification says that reconstructing a unit from the
tagged tuple ("rpm", "bash", "0", "4.3", "1", "x86_64", "sha256", "abc")
yields an RPM whose key fields match the tuple and whose metadata is
empty.  The code instead raises TypeError at exactly this input: the body
of from_typed_unit_key_tuple passes the tuple tail positionally plus a
metadata keyword to the classmethod from_package_info, which accepts only
a single field-mapping parameter, contradicting the docstring of the
function itself (which describes handing unit key arguments followed by a
metadata dict to the constructor).  No unit is produced. -/
theorem c1_from_typed_tuple_raises_type_error :
    from_typed_unit_key_tuple
        ["rpm", "bash", "0", "4.3", "1", "x86_64", "sha256", "abc"] =
      .error .typeError := rfl

/-- Claim C9: for every typed tuple whose first element is not one of the
six registered tags, from_typed_unit_key_tuple fails with a key-lookup
error naming the tag, and no unit is produced. -/
theorem c9_unknown_tag_key_error :
    ∀ (tag : String) (rest : List String),
      ¬ tag ∈ ["distribution", "drpm", "erratum", "package_category",
               "package_group", "rpm"] →
      from_typed_unit_key_tuple (tag :: rest) = .error (.keyError tag) := by
  intro tag rest h
  simp only [List.mem_cons, List.not_mem_nil, or_false, not_or] at h
  obtain ⟨h1, h2, h3, h4, h5, h6⟩ := h
  simp [from_typed_unit_key_tuple, TYPE_MAP, alookup,
    Ne.symm h1, Ne.symm h2, Ne.symm h3, Ne.symm h4, Ne.symm h5, Ne.symm h6]

theorem c9_witness :
    from_typed_unit_key_tuple ["modulemd", "m1"] = .error (.keyError "modulemd") :=
  c9_unknown_tag_key_error "modulemd" ["m1"] (by decide)

/-- Claim C6: every Distribution constructed from (family, variant,
version, arch) stores as its id key field the dash-join of "ks", family,
variant, version, arch, and its relative_path equals that id; in
particular family f20, variant server, version 1, arch x86_64 gives the
relative path ks-f20-server-1-x86_64. -/
theorem c6_distribution_id_and_relative_path :
    (∀ family variant version arch : String,
      Distribution.new family variant version arch =
        .ok (distPkg family variant version arch) ∧
      (distPkg family variant version arch).getattr "id" =
        .ok (.str (dashConcat ["ks", family, variant, version, arch])) ∧
      Distribution.relative_path (distPkg family variant version arch) =
        .ok (.str (dashConcat ["ks", family, variant, version, arch]))) ∧
    Distribution.relative_path (distPkg "f20" "server" "1" "x86_64") =
      .ok (.str "ks-f20-server-1-x86_64") :=
  ⟨fun _ _ _ _ => ⟨rfl, rfl, rfl⟩, rfl⟩

/-- Claim C5: key_string_without_version dash-joins the key-field values
in declared order excluding epoch, version, release, checksum and
checksumtype, appending the type tag as the final component (for an RPM
that is name, arch, tag; for a DRPM it is filename, tag); hence two RPMs
that differ only in version, release and checksum produce the identical
string. -/
theorem c5_key_string_without_version_shape :
    (∀ (n e v r a ct c : String) (md : Value) (p : Package),
      RPM.new n e v r a ct c md = .ok p →
      VersionedPackage.key_string_without_version p =
        .ok (dashConcat [n, a, TYPE PType.rpm])) ∧
    (∀ (e v r f ct c : String) (md : Value) (p : Package),
      DRPM.new e v r f ct c md = .ok p →
      VersionedPackage.key_string_without_version p =
        .ok (dashConcat [f, TYPE PType.drpm])) ∧
    (∀ (n e a ct v1 r1 c1 v2 r2 c2 : String) (md : Value) (p1 p2 : Package),
      RPM.new n e v1 r1 a ct c1 md = .ok p1 →
      RPM.new n e v2 r2 a ct c2 md = .ok p2 →
      VersionedPackage.key_string_without_version p1 =
        VersionedPackage.key_string_without_version p2) := by
  refine ⟨?_, ?_, ?_⟩
  · intro n e v r a ct c md p h
    rw [rpmNew_eq] at h
    injection h with h
    rw [← h]
    rfl
  · intro e v r f ct c md p h
    rw [drpmNew_eq] at h
    injection h with h
    rw [← h]
    rfl
  · intro n e a ct v1 r1 c1 v2 r2 c2 md p1 p2 h1 h2
    rw [rpmNew_eq] at h1
    rw [rpmNew_eq] at h2
    injection h1 with h1
    injection h2 with h2
    rw [← h1, ← h2]
    rfl

theorem c5_witness :
    VersionedPackage.key_string_without_version pCmpA = .ok "bash-x86_64-rpm" :=
  c5_key_string_without_version_shape.1 "bash" "0" "4.3" "1" "x86_64" "sha256"
    "abc" (.vdict []) pCmpA rfl

/-- Claim C4: two versioned units (RPM or DRPM) compare exactly as their
serialized complete-version tuples compare; in particular equal
serialized (epoch, version, release) tuples give comparison value 0,
whatever the other key fields or metadata hold. -/
theorem c4_cmp_by_serialized_version :
    ∀ (a b : Package) (sa sb : List String),
      (a.cls = PType.rpm ∨ a.cls = PType.drpm) →
      (b.cls = PType.rpm ∨ b.cls = PType.drpm) →
      VersionedPackage.complete_version_serialized a = .ok sa →
      VersionedPackage.complete_version_serialized b = .ok sb →
      VersionedPackage.cmp a b = .ok (pyCmpList sa sb) ∧
      (sa = sb → VersionedPackage.cmp a b = .ok 0) := by
  intro a b sa sb _ _ ha hb
  have hc : VersionedPackage.cmp a b = .ok (pyCmpList sa sb) := by
    unfold VersionedPackage.cmp
    rw [ha, exbind_ok, hb, exbind_ok]
  refine ⟨hc, fun he => ?_⟩
  rw [hc, he, pyCmpList_self]

theorem c4_witness : VersionedPackage.cmp pCmpA pCmpB = .ok 0 :=
  (c4_cmp_by_serialized_version pCmpA pCmpB
    [version_utils.encode "0", version_utils.encode "4.3", version_utils.encode "1"]
    [version_utils.encode "0", version_utils.encode "4.3", version_utils.encode "1"]
    (Or.inl rfl) (Or.inl rfl) rfl rfl).2 rfl

/-- Claim C8: constructing any variant from a field mapping that lacks
one of the required key-field names raises KeyError (naming the first
missing field, in declared order) and produces no instance; the error is
not caught locally. -/
theorem c8_missing_key_field_raises_key_error :
    ∀ (cls : PType) (local_vars : List (String × Value)),
      (∃ n ∈ UNIT_KEY_NAMES cls, alookup local_vars n = none) →
      ∃ m ∈ UNIT_KEY_NAMES cls, alookup local_vars m = none ∧
        Package.init cls local_vars = .error (.keyError m) := by
  intro cls lv h
  obtain ⟨m, hm, hnone, herr⟩ := collectAttrs_missing h
  refine ⟨m, hm, hnone, ?_⟩
  unfold Package.init
  rw [herr, exbind_error]

theorem c8_witness :
    Package.init PType.erratum [] = .error (.keyError "id") := by
  obtain ⟨m, hm, _, herr⟩ :=
    c8_missing_key_field_raises_key_error PType.erratum [] ⟨"id", by decide, rfl⟩
  have hid : m = "id" := by simpa [UNIT_KEY_NAMES] using hm
  rw [← hid]
  exact herr

/-- Claim C3: when from_package_info successfully constructs a variant
from a tagged field mapping (a dict, so its keys are distinct), an entry
named type — which is never among the key-field names — is dropped for
every variant except Errata: it ends up in neither the unit-key
attributes nor the metadata.  For Errata it is routed like any ordinary
non-key field and lands in metadata with its value. -/
theorem c3_type_field_dropped_except_errata :
    ∀ (cls : PType) (info : List (String × Value)) (p : Package),
      from_package_info cls info = .ok p →
      (info.map Prod.fst).Nodup →
      (¬ cls = PType.erratum → ¬ "type" ∈ attrKeys p ∧ ¬ "type" ∈ metaKeys p) ∧
      (cls = PType.erratum → ∀ v : Value, ("type", v) ∈ info →
        lookupMeta p "type" = some v) := by
  intro cls info p h hnd
  obtain ⟨_, _, hkeys, hmd⟩ := from_package_info_ok_spec h
  constructor
  · intro hne
    constructor
    · unfold attrKeys
      rw [hkeys]
      cases cls <;> decide
    · rw [metaKeys_vdict hmd]
      intro hmem
      have hP : ∀ k, (UNIT_KEY_NAMES cls).contains k = false →
          ((k == "type") && (cls != PType.erratum)) = false → ¬ k = "type" := by
        intro k _ hb hk
        subst hk
        simp at hb
        exact hne hb
      exact splitFieldsAux_md_mem hP info ([], []) (by simp) "type" hmem rfl
  · intro he v hv
    subst he
    rw [lookupMeta_vdict hmd]
    exact splitFieldsAux_erratum_type_some info ([], []) v hnd hv

theorem c3_witness : lookupMeta pErrataDemo "type" = some (.str "erratum") :=
  (c3_type_field_dropped_except_errata PType.erratum infoErrataDemo pErrataDemo rfl
    (by decide)).2 rfl (.str "erratum")
    (List.mem_cons_of_mem _ (List.mem_cons_self _ _))

/-- Claim C2 counterexample: the claim as stated fails on the direct
constructor path, because the metadata mapping handed to a constructor
may itself contain a key-field name: the call RPM(bash, 0, 4.3, 1,
x86_64, sha256, abc, metadata) with metadata holding a name entry
succeeds and yields an instance on which name is both a unit-key
attribute and a metadata key. -/
theorem c2_counterexample_direct_ctor_overlap :
    RPM.new "bash" "0" "4.3" "1" "x86_64" "sha256" "abc"
        (.vdict [("name", .str "evil")]) =
      .ok (rpmPkg "bash" "0" "4.3" "1" "x86_64" "sha256" "abc"
        (.vdict [("name", .str "evil")])) ∧
    "name" ∈ attrKeys (rpmPkg "bash" "0" "4.3" "1" "x86_64" "sha256" "abc"
        (.vdict [("name", .str "evil")])) ∧
    "name" ∈ metaKeys (rpmPkg "bash" "0" "4.3" "1" "x86_64" "sha256" "abc"
        (.vdict [("name", .str "evil")])) :=
  ⟨rfl, by decide, by decide⟩

/-- Claim C2 amended: no field name is simultaneously a unit-key
attribute and a metadata key on any unit built by from_package_info; for
a unit built by a direct constructor call the same disjointness holds
provided the metadata argument (when it is a dict) contains no key-field
name of the variant. -/
theorem c2_amended_unit_key_metadata_disjoint :
    (∀ (cls : PType) (info : List (String × Value)) (p : Package),
      from_package_info cls info = .ok p →
      ∀ k ∈ attrKeys p, ¬ k ∈ metaKeys p) ∧
    (∀ (cls : PType) (kwargs : List (String × Value)) (p : Package),
      callCtor cls kwargs = .ok p →
      (∀ d : List (String × Value), alookup kwargs "metadata" = some (.vdict d) →
        ∀ kv ∈ d, ¬ kv.1 ∈ UNIT_KEY_NAMES cls) →
      ∀ k ∈ attrKeys p, ¬ k ∈ metaKeys p) := by
  constructor
  · intro cls info p h k hk hmk
    obtain ⟨_, _, hkeys, hmd⟩ := from_package_info_ok_spec h
    unfold attrKeys at hk
    rw [hkeys] at hk
    rw [metaKeys_vdict hmd] at hmk
    have hP : ∀ l, (UNIT_KEY_NAMES cls).contains l = false →
        ((l == "type") && (cls != PType.erratum)) = false →
        ¬ l ∈ UNIT_KEY_NAMES cls := by
      intro l hc _
      simpa using hc
    exact splitFieldsAux_md_mem hP info ([], []) (by simp) k hmk hk
  · intro cls kwargs p h hdisj k hk hmk
    obtain ⟨_, _, hkeys, hother, hdistm⟩ := callCtor_ok_spec h
    unfold attrKeys at hk
    rw [hkeys] at hk
    by_cases hd : cls = PType.distribution
    · rw [metaKeys_vdict (hdistm hd)] at hmk
      simp at hmk
    · have hmeta := hother hd
      cases hmm : alookup kwargs "metadata" with
      | none =>
        rw [hmm] at hmeta
        rw [metaKeys_vdict (by simpa using hmeta)] at hmk
        simp at hmk
      | some v =>
        rw [hmm, Option.getD_some] at hmeta
        cases v with
        | vdict d =>
          rw [metaKeys_vdict hmeta] at hmk
          obtain ⟨kv, hkv, hfst⟩ := List.mem_map.mp hmk
          have hnk := hdisj d hmm kv hkv
          rw [hfst] at hnk
          exact hnk hk
        | str s =>
          rw [metaKeys_nonDict (fun d hh => by rw [hmeta] at hh; cases hh)] at hmk
          simp at hmk
        | num n =>
          rw [metaKeys_nonDict (fun d hh => by rw [hmeta] at hh; cases hh)] at hmk
          simp at hmk
        | vlist l =>
          rw [metaKeys_nonDict (fun d hh => by rw [hmeta] at hh; cases hh)] at hmk
          simp at hmk

theorem c2_witness :
    ¬ "name" ∈ metaKeys pRpmInfoDemo ∧
    ¬ "id" ∈ metaKeys (errataPkg "E1" (.vdict [("extra", .str "e")])) :=
  ⟨c2_amended_unit_key_metadata_disjoint.1 PType.rpm infoRpmDemo pRpmInfoDemo rfl
      "name" (by decide),
   c2_amended_unit_key_metadata_disjoint.2 PType.erratum
      [("id", .str "E1"), ("metadata", .vdict [("extra", .str "e")])]
      (errataPkg "E1" (.vdict [("extra", .str "e")])) rfl
      (fun d hd kv hkv => by
        simp [alookup] at hd
        subst hd
        simp at hkv
        subst hkv
        decide)
      "id" (by decide)⟩

/-- Claim C7: process_download_reports appends exactly one file
descriptor per report, in the given order, to the files metadata entry,
and is not idempotent: a second call with the same report list appends
the same descriptors again, leaving two duplicate entries per report. -/
theorem c7_pdr_appends_and_not_idempotent :
    ∀ (p : Package) (reports : List DownloadReport) (i : String) (q1 q2 : Package),
      p.cls = PType.distribution →
      p.getattr "id" = .ok (.str i) →
      Distribution.process_download_reports p reports = .ok q1 →
      Distribution.process_download_reports q1 reports = .ok q2 →
      metaFiles q1 = metaFiles p ++ reports.map (mkFileDescriptor (TYPE p.cls) i) ∧
      metaFiles q2 = metaFiles p ++ reports.map (mkFileDescriptor (TYPE p.cls) i)
        ++ reports.map (mkFileDescriptor (TYPE p.cls) i) := by
  intro p reports i q1 q2 _ hid h1 h2
  have hai : alookup p.attrs "id" = some (.str i) := getattr_id_alookup hid
  obtain ⟨hc1, ha1, _, L1, hd1, hm1⟩ := pdr_ok_spec h1
  obtain ⟨_, _, _, L2, hd2, hm2⟩ := pdr_ok_spec h2
  have hL1 : L1 = reports.map (mkFileDescriptor (TYPE p.cls) i) := by
    rw [descriptorsFor_of_id hai reports] at hd1
    injection hd1 with hd1
    exact hd1.symm
  have hai2 : alookup q1.attrs "id" = some (.str i) := by
    rw [ha1]
    exact hai
  have hL2 : L2 = reports.map (mkFileDescriptor (TYPE q1.cls) i) := by
    rw [descriptorsFor_of_id hai2 reports] at hd2
    injection hd2 with hd2
    exact hd2.symm
  rw [hc1] at hL2
  constructor
  · rw [hm1, hL1]
  · rw [hm2, hm1, hL1, hL2]

theorem c7_witness :
    metaFiles dDemo1 = metaFiles dDemo ++
      ([rDemo] : List DownloadReport).map
        (mkFileDescriptor (TYPE dDemo.cls) "ks-f20-server-1-x86_64") ∧
    metaFiles dDemo2 = metaFiles dDemo ++
      ([rDemo] : List DownloadReport).map
        (mkFileDescriptor (TYPE dDemo.cls) "ks-f20-server-1-x86_64") ++
      ([rDemo] : List DownloadReport).map
        (mkFileDescriptor (TYPE dDemo.cls) "ks-f20-server-1-x86_64") :=
  c7_pdr_appends_and_not_idempotent dDemo [rDemo] "ks-f20-server-1-x86_64"
    dDemo1 dDemo2 rfl rfl rfl rfl

/-- Claim C10: process_download_reports modifies only the files entry of
metadata: on success the class and every unit-key attribute are
unchanged, every metadata entry other than files is unchanged, and the
pre-existing files entries are preserved with the new descriptors (one
per report) appended after them. -/
theorem c10_pdr_frame :
    ∀ (p : Package) (reports : List DownloadReport) (q : Package),
      p.cls = PType.distribution →
      Distribution.process_download_reports p reports = .ok q →
      q.cls = p.cls ∧ q.attrs = p.attrs ∧
      (∀ k, ¬ k = "files" → lookupMeta q k = lookupMeta p k) ∧
      ∃ L : List Value, metaFiles q = metaFiles p ++ L ∧
        L.length = reports.length := by
  intro p reports q _ h
  obtain ⟨h1, h2, h3, L, hd, hm⟩ := pdr_ok_spec h
  exact ⟨h1, h2, h3, L, hm, descriptorsFor_ok_length hd⟩

theorem c10_witness :
    dDemo1.cls = dDemo.cls ∧ dDemo1.attrs = dDemo.attrs ∧
    (∀ k, ¬ k = "files" → lookupMeta dDemo1 k = lookupMeta dDemo k) ∧
    ∃ L : List Value, metaFiles dDemo1 = metaFiles dDemo ++ L ∧
      L.length = ([rDemo] : List DownloadReport).length :=
  c10_pdr_frame dDemo [rDemo] dDemo1 rfl rfl
